import Mathlib

/-!
Verification of the technojuggling streaming server.

Shallow embedding of the ball tracker, hand tracker, calibration gate,
stream broker and encoder fallback logic, translated from the Python
sources (`src/utils/ball_tracking.py`, `src/server.py`,
`src/utils/hand_tracking.py`, `src/src/python/hand_tracking.py`,
`src/utils/websocket_handler.py`, `src/src/python/websocket_handler.py`,
`src/src/python/nvenc_encoder.py`).

External OpenCV primitives (color conversion, thresholding, morphology,
contour extraction, minimum enclosing circle, JPEG encoding) and the
MediaPipe hand detector are treated as opaque oracles: the embedding
takes their outputs as inputs and models the repository's own logic on
top of them.  Coordinates, areas and radii are modelled as rationals.
-/

namespace TechnoJuggling

/-! ## Ball tracking (`src/utils/ball_tracking.py`, `src/server.py`)

A `Contour` abstracts one external contour returned by
`cv2.findContours` on the cleaned (opened + closed) mask of one ball id,
together with the outputs of `cv2.contourArea` and
`cv2.minEnclosingCircle` on it. -/

structure Contour where
  area : ℚ
  cx : ℚ
  cy : ℚ
  r : ℚ
deriving Repr, DecidableEq

/-- Threshold configuration; `config.py` sets
`MIN_BALL_RADIUS, MAX_BALL_RADIUS, MIN_BALL_AREA = 5, 100, 50`
(same constants on `server.py` line 74). -/
structure BallCfg where
  minArea : ℚ
  minRadius : ℚ
  maxRadius : ℚ
deriving Repr, DecidableEq

def defaultBallCfg : BallCfg := { minArea := 50, minRadius := 5, maxRadius := 100 }

/-- `max(contours, key=cv2.contourArea)`: Python's `max` keeps the first
maximal element, replacing the running best only on a strictly larger key. -/
def maxByArea : List Contour → Option Contour
  | [] => none
  | c :: cs => some (cs.foldl (fun best d => if best.area < d.area then d else best) c)

/-- One emitted ball detection: `{'id': i, 'x': x/w, 'y': y/h, 'radius': int(r)}`. -/
structure BallDetection where
  id : ℕ
  x : ℚ
  y : ℚ
  radius : ℤ
deriving Repr, DecidableEq

/-- The per-ball body of the loop in `BallTracker.detect`
(`src/utils/ball_tracking.py` lines 58-75): take the largest-area contour
of ball `i`'s cleaned mask, accept only if
`area > MIN_BALL_AREA and MIN_BALL_RADIUS < r < MAX_BALL_RADIUS`. -/
def detectBall (cfg : BallCfg) (w h : ℚ) (i : ℕ) (contours : List Contour) :
    Option BallDetection :=
  match maxByArea contours with
  | none => none
  | some largest =>
    if cfg.minArea < largest.area ∧ cfg.minRadius < largest.r ∧ largest.r < cfg.maxRadius
    then some { id := i, x := largest.cx / w, y := largest.cy / h, radius := ⌊largest.r⌋ }
    else none

/-- Tracker flags from `BallTracker.__init__` / `initialize`. -/
structure BallTracker where
  enabled : Bool
  numBalls : ℕ
deriving Repr, DecidableEq

/-- `BallTracker.detect` (`src/utils/ball_tracking.py` lines 49-77).
`contoursOf i` abstracts the external-contour list of ball `i`'s cleaned
mask for the given frame. -/
def BallTracker.detect (bt : BallTracker) (cfg : BallCfg) (w h : ℚ)
    (contoursOf : ℕ → List Contour) : List BallDetection :=
  if bt.enabled = false ∨ bt.numBalls = 0 then []
  else (List.range bt.numBalls).filterMap (fun i => detectBall cfg w h i (contoursOf i))

lemma detectBall_id {cfg : BallCfg} {w h : ℚ} {i : ℕ} {cs : List Contour}
    {d : BallDetection} (hd : detectBall cfg w h i cs = some d) : d.id = i := by
  unfold detectBall at hd
  split at hd
  · exact absurd hd (by simp)
  · split at hd
    · cases hd; rfl
    · exact absurd hd (by simp)

lemma detectBall_isSome_iff {cfg : BallCfg} {w h : ℚ} {i : ℕ} {cs : List Contour} :
    (detectBall cfg w h i cs).isSome = true ↔
      ∃ c, maxByArea cs = some c ∧
        cfg.minArea < c.area ∧ cfg.minRadius < c.r ∧ c.r < cfg.maxRadius := by
  unfold detectBall
  split
  · rename_i hmax
    simp [hmax]
  · rename_i c hmax
    by_cases hcond : cfg.minArea < c.area ∧ cfg.minRadius < c.r ∧ c.r < cfg.maxRadius
    · simp [hmax, hcond]
    · simp [hmax, hcond]

/-- C1.  For a calibrated ball id (tracker enabled, `i < numBalls`), a
detection with that id appears in `BallTracker.detect`'s output iff the
largest-area external contour of that id's cleaned mask exists and has
`area > 50` and `5 < radius < 100` (the default thresholds); in
particular the ball is absent when no contour exists or a threshold
fails. -/
theorem ball_emitted_iff_thresholds (bt : BallTracker) (w h : ℚ)
    (contoursOf : ℕ → List Contour) (i : ℕ)
    (hen : bt.enabled = true) (hi : i < bt.numBalls) :
    (∃ d ∈ bt.detect defaultBallCfg w h contoursOf, d.id = i) ↔
      ∃ c, maxByArea (contoursOf i) = some c ∧
        50 < c.area ∧ 5 < c.r ∧ c.r < 100 := by
  have hne : ¬(bt.enabled = false ∨ bt.numBalls = 0) := by
    rintro (h | h)
    · rw [hen] at h; exact Bool.noConfusion h
    · omega
  unfold BallTracker.detect
  rw [if_neg hne]
  constructor
  · rintro ⟨d, hd, hid⟩
    rw [List.mem_filterMap] at hd
    obtain ⟨j, _, hj⟩ := hd
    have : d.id = j := detectBall_id hj
    have hij : j = i := by rw [← hid, this]
    subst hij
    have : (detectBall defaultBallCfg w h j (contoursOf j)).isSome = true := by
      rw [hj]; rfl
    exact detectBall_isSome_iff.mp this
  · intro hc
    have hsome : (detectBall defaultBallCfg w h i (contoursOf i)).isSome = true :=
      detectBall_isSome_iff.mpr hc
    obtain ⟨d, hd⟩ := Option.isSome_iff_exists.mp hsome
    exact ⟨d, List.mem_filterMap.mpr ⟨i, List.mem_range.mpr hi, hd⟩, detectBall_id hd⟩

/-- Witness for `ball_emitted_iff_thresholds`: one ball calibrated, its
mask has a single contour of area 100 and radius 10, so a detection with
id 0 is emitted. -/
theorem ball_emitted_iff_thresholds_witness :
    ∃ d ∈ BallTracker.detect { enabled := true, numBalls := 1 } defaultBallCfg 320 240
        (fun _ => [{ area := 100, cx := 160, cy := 120, r := 10 }]), d.id = 0 :=
  (ball_emitted_iff_thresholds { enabled := true, numBalls := 1 } 320 240
      (fun _ => [{ area := 100, cx := 160, cy := 120, r := 10 }]) 0 rfl (by decide)).mpr
    ⟨{ area := 100, cx := 160, cy := 120, r := 10 }, rfl, by norm_num⟩

lemma length_filterMap_mono {α β : Type} (l : List α) (f g : α → Option β)
    (h : ∀ a, (f a).isSome = true → (g a).isSome = true) :
    (l.filterMap f).length ≤ (l.filterMap g).length := by
  induction l with
  | nil => simp
  | cons a t ih =>
    cases hf : f a with
    | none =>
      cases hg : g a with
      | none => simpa [List.filterMap_cons, hf, hg] using ih
      | some b =>
        simp only [List.filterMap_cons, hf, hg, List.length_cons]
        exact Nat.le_succ_of_le ih
    | some b =>
      have : (g a).isSome = true := h a (by rw [hf]; rfl)
      obtain ⟨c, hc⟩ := Option.isSome_iff_exists.mp this
      simp only [List.filterMap_cons, hf, hc, List.length_cons]
      exact Nat.succ_le_succ ih

/-- C6.  Relaxing the thresholds — `MIN_AREA` shrunk to 0 and
`MAX_RADIUS` enlarged, `MIN_RADIUS` unchanged — never decreases the
number of detections `BallTracker.detect` emits for a frame. -/
theorem detection_count_monotone (bt : BallTracker) (w h : ℚ)
    (contoursOf : ℕ → List Contour) (cfg cfg' : BallCfg)
    (hA0 : cfg'.minArea = 0) (hA : 0 ≤ cfg.minArea)
    (hRmin : cfg'.minRadius = cfg.minRadius)
    (hRmax : cfg.maxRadius ≤ cfg'.maxRadius) :
    (bt.detect cfg w h contoursOf).length ≤ (bt.detect cfg' w h contoursOf).length := by
  unfold BallTracker.detect
  by_cases hcase : bt.enabled = false ∨ bt.numBalls = 0
  · rw [if_pos hcase, if_pos hcase]
  · rw [if_neg hcase, if_neg hcase]
    apply length_filterMap_mono
    intro i hsome
    obtain ⟨c, hmax, harea, hrlo, hrhi⟩ := detectBall_isSome_iff.mp hsome
    refine detectBall_isSome_iff.mpr ⟨c, hmax, ?_, ?_, ?_⟩
    · rw [hA0]; exact lt_of_le_of_lt hA harea
    · rw [hRmin]; exact hrlo
    · exact lt_of_lt_of_le hrhi hRmax

/-- Witness for `detection_count_monotone`: a contour of area 60, radius
20 is accepted under both the default and the relaxed thresholds; the
count does not drop. -/
theorem detection_count_monotone_witness :
    (BallTracker.detect { enabled := true, numBalls := 1 } defaultBallCfg 320 240
        (fun _ => [{ area := 60, cx := 1, cy := 1, r := 20 }])).length ≤
      (BallTracker.detect { enabled := true, numBalls := 1 }
        { minArea := 0, minRadius := 5, maxRadius := 200 } 320 240
        (fun _ => [{ area := 60, cx := 1, cy := 1, r := 20 }])).length :=
  detection_count_monotone { enabled := true, numBalls := 1 } 320 240
    (fun _ => [{ area := 60, cx := 1, cy := 1, r := 20 }]) defaultBallCfg
    { minArea := 0, minRadius := 5, maxRadius := 200 }
    rfl (by norm_num [defaultBallCfg]) rfl (by norm_num [defaultBallCfg])

/-! ## Position smoothing (`src/server.py` lines 85, 143-148)

`position_smoothing = 0.7`; an accepted center is blended with the
ball's last accepted position by
`xn = lx*position_smoothing + xn*(1-position_smoothing)` and stored back
into `last_ball_positions[i]`. -/

def position_smoothing : ℚ := 7/10

/-- One smoothing update of `detect_balls` (line 146): last accepted
value `last`, freshly accepted value `cur`. -/
def smoothStep (α : ℚ) (last cur : ℚ) : ℚ := last * α + cur * (1 - α)

/-- The smoothed value after feeding the same accepted position `x` for
`k` consecutive frames, starting from last accepted position `s`. -/
def iterSmooth (α x : ℚ) : ℕ → ℚ → ℚ
  | 0, s => s
  | k + 1, s => iterSmooth α x k (smoothStep α s x)

lemma iterSmooth_sub (α x : ℚ) : ∀ (k : ℕ) (s : ℚ),
    iterSmooth α x k s - x = α ^ k * (s - x) := by
  intro k
  induction k with
  | zero => intro s; simp [iterSmooth]
  | succ n ih =>
    intro s
    have hstep : smoothStep α s x - x = α * (s - x) := by
      unfold smoothStep; ring
    calc iterSmooth α x (n + 1) s - x
        = iterSmooth α x n (smoothStep α s x) - x := rfl
      _ = α ^ n * (smoothStep α s x - x) := ih (smoothStep α s x)
      _ = α ^ n * (α * (s - x)) := by rw [hstep]
      _ = α ^ (n + 1) * (s - x) := by ring

/-- Counterexample to C7 as stated: with α = 9/10 ∈ (0,1), ε = 1/2 > 0,
last accepted position 0 and raw input 1, after k = 5 ≥ 5 frames the
smoothed output is still at distance (9/10)^5 = 59049/100000 ≥ 1/2 from
the raw input, so "k ≥ 5 frames converge to within ε, for any α in
(0,1)" fails. -/
theorem smoothing_five_frames_insufficient :
    ¬ (∀ α : ℚ, 0 < α → α < 1 → ∀ ε : ℚ, 0 < ε → ∀ s x : ℚ, ∀ k : ℕ,
        5 ≤ k → |iterSmooth α x k s - x| < ε) := by
  intro hclaim
  have h := hclaim (9/10) (by norm_num) (by norm_num) (1/2) (by norm_num) 0 1 5 (le_refl 5)
  have heq : iterSmooth (9/10) 1 5 0 - 1 = (9/10 : ℚ) ^ 5 * (0 - 1) :=
    iterSmooth_sub (9/10) 1 5 0
  rw [heq] at h
  norm_num [abs] at h

/-- C7 amended.  The code's update is exponential smoothing
`smoothed = α·last + (1-α)·current` with α = `position_smoothing` = 0.7,
and for every α in (0,1) the error after k repeated frames is exactly
α^k times the initial error, so for every ε > 0 there is a K (depending
on α, ε and the starting error) with the smoothed output within ε of
the raw input for all k ≥ K. -/
theorem smoothing_geometric_convergence (α ε s x : ℚ)
    (h0 : 0 < α) (h1 : α < 1) (hε : 0 < ε) :
    (∀ last cur, smoothStep α last cur = α * last + (1 - α) * cur) ∧
    position_smoothing = 7/10 ∧
    (∀ k : ℕ, |iterSmooth α x k s - x| = α ^ k * |s - x|) ∧
    (∃ K : ℕ, ∀ k : ℕ, K ≤ k → |iterSmooth α x k s - x| < ε) := by
  have habs : ∀ k : ℕ, |iterSmooth α x k s - x| = α ^ k * |s - x| := by
    intro k
    rw [iterSmooth_sub, abs_mul, abs_pow, abs_of_pos h0]
  refine ⟨fun last cur => by unfold smoothStep; ring, rfl, habs, ?_⟩
  rcases eq_or_ne s x with hsx | hsx
  · refine ⟨0, fun k _ => ?_⟩
    rw [habs, hsx]
    simpa using hε
  · have hd : 0 < |s - x| := abs_pos.mpr (sub_ne_zero.mpr hsx)
    obtain ⟨K, hK⟩ := exists_pow_lt_of_lt_one (div_pos hε hd) h1
    refine ⟨K, fun k hk => ?_⟩
    rw [habs]
    have hpow : α ^ k ≤ α ^ K := pow_le_pow_of_le_one h0.le h1.le hk
    calc α ^ k * |s - x| ≤ α ^ K * |s - x| :=
          mul_le_mul_of_nonneg_right hpow (abs_nonneg _)
      _ < (ε / |s - x|) * |s - x| := by
          exact mul_lt_mul_of_pos_right hK hd
      _ = ε := div_mul_cancel₀ ε (ne_of_gt hd)

/-- Witness for `smoothing_geometric_convergence` at α = 1/2, ε = 1/4,
start 0, raw input 1. -/
theorem smoothing_geometric_convergence_witness :
    (∀ last cur, smoothStep (1/2) last cur = (1/2) * last + (1 - 1/2) * cur) ∧
    position_smoothing = 7/10 ∧
    (∀ k : ℕ, |iterSmooth (1/2) 1 k 0 - 1| = (1/2 : ℚ) ^ k * |0 - 1|) ∧
    (∃ K : ℕ, ∀ k : ℕ, K ≤ k → |iterSmooth (1/2) 1 k 0 - 1| < 1/4) :=
  smoothing_geometric_convergence (1/2) (1/4) 0 1 (by norm_num) (by norm_num) (by norm_num)

/-! ## Hand tracking (`src/utils/hand_tracking.py`, `src/src/python/hand_tracking.py`,
`src/server.py` lines 172-198)

The MediaPipe detector is opaque: its output is a list of detected
hands, each carrying the handedness classification label (`'Right'` or
not) and an ordered landmark list.  All three variants fold that list
into a two-sided record, the last hand seen for a side winning.  The
`HandTracker` variants set a hand's position to the centroid (arithmetic
mean) of its landmarks; the inline `server.py` variant sets it to the
wrist landmark (`hand_lm.landmark[mp_hands.HandLandmark.WRIST]`, index
0).  Both computations are defined only for a non-empty landmark list
(`sum(xs)/len(xs)` raises on empty; indexing raises on empty), so they
are embedded as `Option`. -/

structure Landmark where
  x : ℚ
  y : ℚ
  z : ℚ
deriving Repr, DecidableEq

/-- One hand reported by the external detector: the handedness label
reduced to `label == 'Right'`, and the landmark list. -/
structure DetectedHand where
  isRightLabel : Bool
  landmarks : List Landmark
deriving Repr, DecidableEq

/-- Per-side record: `{'detected': …, 'position': …, 'landmarks': …}`. -/
structure SideData where
  detected : Bool
  position : Landmark
  landmarks : List Landmark
deriving Repr, DecidableEq

def emptySide : SideData := { detected := false, position := ⟨0, 0, 0⟩, landmarks := [] }

/-- Two-sided hand state; both sides are always present by construction,
matching the fixed-key dictionaries built by every variant. -/
structure HandState where
  right : SideData
  left : SideData
deriving Repr, DecidableEq

/-- Centroid of a landmark list: `sum(xs)/len(xs)` per coordinate
(`src/utils/hand_tracking.py` lines 48-55, `src/src/python/hand_tracking.py`
lines 89-92).  `none` on an empty list, where the Python division by
`len(...) = 0` raises. -/
def centroid (lms : List Landmark) : Option Landmark :=
  match lms with
  | [] => none
  | _ :: _ =>
    let n : ℚ := lms.length
    some { x := (lms.map Landmark.x).sum / n
         , y := (lms.map Landmark.y).sum / n
         , z := (lms.map Landmark.z).sum / n }

/-- The per-hand loop of `HandTracker.process`: assign
`{'detected': True, 'position': centroid, 'landmarks': lms}` to the side
named by the classification label, last hand seen for a side winning. -/
def processHands : List DetectedHand → HandState → Option HandState
  | [], st => some st
  | hnd :: rest, st =>
    match centroid hnd.landmarks with
    | none => none
    | some c =>
      processHands rest
        (if hnd.isRightLabel
         then { st with right := { detected := true, position := c, landmarks := hnd.landmarks } }
         else { st with left := { detected := true, position := c, landmarks := hnd.landmarks } })

/-- `HandTracker.process` of both tracker variants, starting from the
two default sides (`detected: False, position: origin, landmarks: []`). -/
def trackerProcess (hands : List DetectedHand) : Option HandState :=
  processHands hands { right := emptySide, left := emptySide }

/-- The per-hand loop of `server.py`'s `process_hand_tracking`
(lines 186-193): identical, except the position is the wrist landmark
`hand_lm.landmark[WRIST]` (index 0) instead of the centroid. -/
def serverProcessHands : List DetectedHand → HandState → Option HandState
  | [], st => some st
  | hnd :: rest, st =>
    match hnd.landmarks.head? with
    | none => none
    | some wrist =>
      serverProcessHands rest
        (if hnd.isRightLabel
         then { st with right := { detected := true, position := wrist, landmarks := hnd.landmarks } }
         else { st with left := { detected := true, position := wrist, landmarks := hnd.landmarks } })

/-- `process_hand_tracking`'s per-frame state construction in `server.py`. -/
def serverProcess (hands : List DetectedHand) : Option HandState :=
  serverProcessHands hands { right := emptySide, left := emptySide }

/-- Invariant carried by the tracker fold: a side is either untouched
and empty, or holds a detected hand whose position is the centroid of
its non-empty landmark list. -/
def SideOk (sd : SideData) : Prop :=
  (sd.detected = true → centroid sd.landmarks = some sd.position) ∧
  (sd.detected = true ↔ sd.landmarks ≠ [])

lemma sideOk_empty : SideOk emptySide := by
  constructor
  · intro h; exact absurd h (by simp [emptySide])
  · simp [emptySide]

lemma processHands_preserves (hands : List DetectedHand) :
    ∀ st : HandState, SideOk st.right → SideOk st.left →
      ∀ st' : HandState, processHands hands st = some st' →
        SideOk st'.right ∧ SideOk st'.left := by
  induction hands with
  | nil =>
    intro st hr hl st' h
    cases h
    exact ⟨hr, hl⟩
  | cons hnd rest ih =>
    intro st hr hl st' h
    unfold processHands at h
    split at h
    · exact absurd h (by simp)
    · rename_i c hc
      have hne : hnd.landmarks ≠ [] := by
        intro he
        rw [he] at hc
        exact absurd hc (by simp [centroid])
      have hok : SideOk { detected := true, position := c, landmarks := hnd.landmarks } := by
        constructor
        · intro _; exact hc
        · simpa using hne
      by_cases hlab : hnd.isRightLabel = true
      · rw [if_pos hlab] at h
        refine ih _ ?_ ?_ st' h
        · exact hok
        · exact hl
      · rw [if_neg hlab] at h
        refine ih _ ?_ ?_ st' h
        · exact hr
        · exact hok

/-- Counterexample to C3 as stated: on a detector output with one right
hand whose landmarks are (0,0,0) and (1,1,1), the `server.py` variant
publishes position (0,0,0) — the wrist landmark — while the centroid of
the hand's landmarks is (1/2,1/2,1/2), so the published position is not
the landmark centroid. -/
theorem server_position_not_centroid :
    ∃ st, serverProcess [{ isRightLabel := true, landmarks := [⟨0, 0, 0⟩, ⟨1, 1, 1⟩] }] =
        some st ∧
      st.right.detected = true ∧
      centroid st.right.landmarks ≠ some st.right.position := by
  refine ⟨{ right := { detected := true, position := ⟨0, 0, 0⟩
                     , landmarks := [⟨0, 0, 0⟩, ⟨1, 1, 1⟩] }
          , left := emptySide }, rfl, rfl, ?_⟩
  show centroid [⟨0, 0, 0⟩, ⟨1, 1, 1⟩] ≠ some ⟨0, 0, 0⟩
  have hc : centroid [(⟨0, 0, 0⟩ : Landmark), ⟨1, 1, 1⟩] =
      some ⟨1/2, 1/2, 1/2⟩ := by
    norm_num [centroid]
  rw [hc]
  norm_num [Landmark.mk.injEq]

/-- C3 amended.  In the `HandTracker` variants
(`src/utils/hand_tracking.py`, `src/src/python/hand_tracking.py`), every
side reported as detected in a returned hand state has its published
position equal to the centroid of its landmark coordinates; the inline
`server.py` variant publishes the wrist landmark instead. -/
theorem tracker_position_is_centroid (hands : List DetectedHand) (st : HandState)
    (h : trackerProcess hands = some st) :
    (st.right.detected = true → centroid st.right.landmarks = some st.right.position) ∧
    (st.left.detected = true → centroid st.left.landmarks = some st.left.position) := by
  have := processHands_preserves hands _ sideOk_empty sideOk_empty st h
  exact ⟨this.1.1, this.2.1⟩

/-- Witness for `tracker_position_is_centroid`: one right hand with a
single landmark (2,4,6); the tracker publishes exactly that centroid. -/
theorem tracker_position_is_centroid_witness :
    (∃ st, trackerProcess [{ isRightLabel := true, landmarks := [⟨2, 4, 6⟩] }] = some st) ∧
    ∀ st, trackerProcess [{ isRightLabel := true, landmarks := [⟨2, 4, 6⟩] }] = some st →
      (st.right.detected = true → centroid st.right.landmarks = some st.right.position) ∧
      (st.left.detected = true → centroid st.left.landmarks = some st.left.position) :=
  ⟨⟨_, rfl⟩, fun st h =>
    tracker_position_is_centroid [{ isRightLabel := true, landmarks := [⟨2, 4, 6⟩] }] st h⟩

/-- C8.  Every hand state returned by `HandTracker.process` has exactly
the two sides `right` and `left` (the record carries both by
construction), and on each side the landmark list is non-empty iff the
side's detected flag is true. -/
theorem handstate_two_sides_detected_iff (hands : List DetectedHand) (st : HandState)
    (h : trackerProcess hands = some st) :
    st = { right := st.right, left := st.left } ∧
    (st.right.detected = true ↔ st.right.landmarks ≠ []) ∧
    (st.left.detected = true ↔ st.left.landmarks ≠ []) := by
  have := processHands_preserves hands _ sideOk_empty sideOk_empty st h
  exact ⟨rfl, this.1.2, this.2.2⟩

/-- Witness for `handstate_two_sides_detected_iff`: a frame with one
left-labelled hand with one landmark. -/
theorem handstate_two_sides_detected_iff_witness :
    (∃ st, trackerProcess [{ isRightLabel := false, landmarks := [⟨1, 1, 1⟩] }] = some st) ∧
    ∀ st, trackerProcess [{ isRightLabel := false, landmarks := [⟨1, 1, 1⟩] }] = some st →
      st = { right := st.right, left := st.left } ∧
      (st.right.detected = true ↔ st.right.landmarks ≠ []) ∧
      (st.left.detected = true ↔ st.left.landmarks ≠ []) :=
  ⟨⟨_, rfl⟩, fun st h =>
    handstate_two_sides_detected_iff [{ isRightLabel := false, landmarks := [⟨1, 1, 1⟩] }] st h⟩

lemma processHands_total (hands : List DetectedHand) :
    ∀ st : HandState, (∀ hnd ∈ hands, hnd.landmarks ≠ []) →
      (processHands hands st).isSome = true := by
  induction hands with
  | nil => intro st _; rfl
  | cons hnd rest ih =>
    intro st hpre
    have hne : hnd.landmarks ≠ [] := hpre hnd (List.mem_cons_self hnd rest)
    unfold processHands
    cases hc : centroid hnd.landmarks with
    | none =>
      cases hlm : hnd.landmarks with
      | nil => exact absurd hlm hne
      | cons a t => rw [hlm] at hc; exact absurd hc (by simp [centroid])
    | some c =>
      exact ih _ (fun x hx => hpre x (List.mem_cons_of_mem hnd hx))

/-- C10.  If every hand in the detector's output carries at least one
landmark, the tracker's centroid division is well-defined and `process`
returns a state; a detector output containing a hand with an empty
landmark list reaches the division-by-zero branch, embedded as `none`. -/
theorem centroid_division_totality :
    (∀ hands : List DetectedHand, (∀ hnd ∈ hands, hnd.landmarks ≠ []) →
      (trackerProcess hands).isSome = true) ∧
    trackerProcess [{ isRightLabel := true, landmarks := [] }] = none := by
  exact ⟨fun hands hpre => processHands_total hands _ hpre, rfl⟩

/-- Witness for `centroid_division_totality`: a single-hand output with
one landmark satisfies the precondition and `process` succeeds. -/
theorem centroid_division_totality_witness :
    (trackerProcess [{ isRightLabel := true, landmarks := [⟨0, 0, 0⟩] }]).isSome = true :=
  centroid_division_totality.1 [{ isRightLabel := true, landmarks := [⟨0, 0, 0⟩] }]
    (by intro hnd hh; simp at hh; rw [hh]; simp)

/-! ## Stream broker and calibration gate (`src/src/python/websocket_handler.py`)

`CalibrationProfile` abstracts the calibration settings dictionary
(camera settings plus per-ball HSV ranges); its contents are opaque to
the protocol logic modelled here. -/

structure CalibrationProfile where
  payload : ℕ
deriving Repr, DecidableEq

/-- Server→client messages relevant to the gate and stream protocol. -/
inductive OutMsg where
  | calibrationRequest
  | calibration (p : CalibrationProfile)
  | errorMsg
deriving Repr, DecidableEq

/-! ### `_handle_stream` (lines 148-166): wait for calibration, 120 s timeout

The wait is the poll loop
`while self.calibration_settings is None: if elapsed > 120: send error;
return; await asyncio.sleep(0.1)`.  Poll tick `k` has elapsed `k/10`
seconds; the settings check runs first on every tick, and the timeout
branch `elapsed > 120` first fires on tick 1201.  `avail k` abstracts
"`calibration_settings` is not `None` at poll tick `k`". -/

inductive WaitResult where
  | ready (tick : ℕ)
  | timedOut
deriving Repr, DecidableEq

def waitLoop (avail : ℕ → Bool) : ℕ → ℕ → WaitResult
  | tick, 0 => if avail tick then .ready tick else .timedOut
  | tick, fuel + 1 => if avail tick then .ready tick else waitLoop avail (tick + 1) fuel

/-- Ticks before the `elapsed > 120` branch fires: `avail` is consulted
on ticks 0 … 1201. -/
def timeoutPolls : ℕ := 1201

/-- Broker-side state visible to a stream request: the registered
subscribers.  `_handle_stream` never mutates it. -/
structure BrokerState where
  clients : List ℕ
deriving Repr, DecidableEq

/-- The gate phase of `_handle_stream` for subscriber `c`: on timeout
the only effect is one `error` message to `c` and the request returns;
on readiness the per-subscriber send loop begins. -/
def handleStream (st : BrokerState) (c : ℕ) (avail : ℕ → Bool) :
    BrokerState × List (ℕ × OutMsg) × WaitResult :=
  match waitLoop avail 0 timeoutPolls with
  | .timedOut => (st, [(c, .errorMsg)], .timedOut)
  | .ready k => (st, [], .ready k)

lemma waitLoop_ready (avail : ℕ → Bool) :
    ∀ fuel tick, (∃ k, tick ≤ k ∧ k ≤ tick + fuel ∧ avail k = true) →
      ∃ r, waitLoop avail tick fuel = .ready r := by
  intro fuel
  induction fuel with
  | zero =>
    intro tick ⟨k, hk1, hk2, hk⟩
    have : k = tick := le_antisymm (by omega) hk1
    subst this
    exact ⟨k, by unfold waitLoop; rw [if_pos hk]⟩
  | succ n ih =>
    intro tick ⟨k, hk1, hk2, hk⟩
    have estep : waitLoop avail tick (n + 1) =
        if avail tick = true then WaitResult.ready tick
        else waitLoop avail (tick + 1) n := rfl
    by_cases ht : avail tick = true
    · exact ⟨tick, by rw [estep, if_pos ht]⟩
    · have hkt : tick ≠ k := by
        intro he; rw [← he] at hk; exact ht hk
      obtain ⟨r, hr⟩ := ih (tick + 1) ⟨k, by omega, by omega, hk⟩
      exact ⟨r, by rw [estep, if_neg ht]; exact hr⟩

lemma waitLoop_timedOut (avail : ℕ → Bool) :
    ∀ fuel tick, (∀ k, tick ≤ k → k ≤ tick + fuel → avail k = false) →
      waitLoop avail tick fuel = .timedOut := by
  intro fuel
  induction fuel with
  | zero =>
    intro tick h
    have := h tick (le_refl tick) (by omega)
    unfold waitLoop
    rw [this]
    simp
  | succ n ih =>
    intro tick h
    have h0 : avail tick = false := h tick (le_refl tick) (by omega)
    have estep : waitLoop avail tick (n + 1) =
        if avail tick = true then WaitResult.ready tick
        else waitLoop avail (tick + 1) n := rfl
    rw [estep, h0]
    simpa using ih (tick + 1) (fun k hk1 hk2 => h k (by omega) (by omega))

/-- C2.  A `start_stream` request arriving before the calibration
profile is available blocks in the poll loop: if the profile appears at
some tick within the timeout window the subscriber's stream begins
(`ready`, no error), otherwise exactly one `error` message is sent to
that subscriber and the request returns — in both cases the broker
state, and with it every other subscriber, is untouched. -/
theorem stream_gate_blocks_until_ready (st : BrokerState) (c : ℕ) (avail : ℕ → Bool) :
    ((∃ k, k ≤ timeoutPolls ∧ avail k = true) →
      ∃ r, handleStream st c avail = (st, [], .ready r)) ∧
    ((∀ k, k ≤ timeoutPolls → avail k = false) →
      handleStream st c avail = (st, [(c, .errorMsg)], .timedOut)) := by
  constructor
  · rintro ⟨k, hk, hav⟩
    obtain ⟨r, hr⟩ := waitLoop_ready avail timeoutPolls 0 ⟨k, Nat.zero_le k, by omega, hav⟩
    exact ⟨r, by unfold handleStream; rw [hr]⟩
  · intro hall
    have hto : waitLoop avail 0 timeoutPolls = .timedOut :=
      waitLoop_timedOut avail timeoutPolls 0 (fun k _ hk2 => hall k (by omega))
    unfold handleStream
    rw [hto]

/-- Witness for `stream_gate_blocks_until_ready`: the profile becomes
available at poll tick 3, so the stream starts with no error and the
client list `[0, 7]` is untouched. -/
theorem stream_gate_blocks_until_ready_witness :
    ∃ r, handleStream { clients := [0, 7] } 7 (fun k => k == 3) =
      ({ clients := [0, 7] }, [], .ready r) :=
  (stream_gate_blocks_until_ready { clients := [0, 7] } 7 (fun k => k == 3)).1
    ⟨3, by decide, rfl⟩

/-! ### `handle_client` connect phase (lines 57-84): one-shot calibration request

On connect the client is registered; if `self.first_connection` is still
true it is cleared and a single `calibration_request` is sent to the
connecting client; independently, an already-available profile is sent
immediately. -/

structure WSHandler where
  connectedClients : List ℕ
  firstConnection : Bool
  calibrationSettings : Option CalibrationProfile
deriving Repr, DecidableEq

/-- State at server start (`WebSocketHandler.__init__`). -/
def initialHandler : WSHandler :=
  { connectedClients := [], firstConnection := true, calibrationSettings := none }

def handleConnect (s : WSHandler) (c : ℕ) : WSHandler × List (ℕ × OutMsg) :=
  if s.firstConnection then
    ({ connectedClients := c :: s.connectedClients, firstConnection := false
     , calibrationSettings := s.calibrationSettings },
     (c, OutMsg.calibrationRequest) ::
       (match s.calibrationSettings with
        | some p => [(c, OutMsg.calibration p)]
        | none => []))
  else
    ({ s with connectedClients := c :: s.connectedClients },
     match s.calibrationSettings with
     | some p => [(c, OutMsg.calibration p)]
     | none => [])

/-- Process a run's subscriber connections in order, collecting every
message sent during the connect phases. -/
def runConnections : WSHandler → List ℕ → WSHandler × List (ℕ × OutMsg)
  | s, [] => (s, [])
  | s, c :: cs =>
    ((runConnections (handleConnect s c).1 cs).1,
     (handleConnect s c).2 ++ (runConnections (handleConnect s c).1 cs).2)

def isCalReq : OutMsg → Bool
  | OutMsg.calibrationRequest => true
  | _ => false

lemma handleConnect_not_first {s : WSHandler} {c : ℕ} (h : s.firstConnection = false) :
    (handleConnect s c).1.firstConnection = false ∧
      ((handleConnect s c).2.filter (fun m => isCalReq m.2)) = [] := by
  unfold handleConnect
  rw [h]
  constructor
  · simp [h]
  · simp only [Bool.false_eq_true, if_false]
    cases s.calibrationSettings with
    | none => rfl
    | some p => simp [isCalReq]

lemma runConnections_no_calReq (cs : List ℕ) :
    ∀ s : WSHandler, s.firstConnection = false →
      ((runConnections s cs).2.filter (fun m => isCalReq m.2)) = [] := by
  induction cs with
  | nil => intro s _; rfl
  | cons c rest ih =>
    intro s h
    obtain ⟨h1, h2⟩ := handleConnect_not_first (c := c) h
    unfold runConnections
    rw [List.filter_append, h2, ih _ h1]
    rfl

/-- C4.  Starting from a handler state whose one-shot latch is still
set (as at server start), the `calibration_request` messages sent across
an entire run of subscriber connections are exactly one message to the
very first connection — later connections never retrigger it; with no
connection none is sent. -/
theorem calibration_request_sent_once (s : WSHandler) (hs : s.firstConnection = true)
    (cs : List ℕ) :
    ((runConnections s cs).2.filter (fun m => isCalReq m.2)) =
      match cs with
      | [] => []
      | c :: _ => [(c, OutMsg.calibrationRequest)] := by
  cases cs with
  | nil => rfl
  | cons c rest =>
    have hfirst : (handleConnect s c).1.firstConnection = false := by
      unfold handleConnect
      rw [hs]
      simp
    have hmsgs : ((handleConnect s c).2.filter (fun m => isCalReq m.2)) =
        [(c, OutMsg.calibrationRequest)] := by
      unfold handleConnect
      rw [hs]
      simp only [if_true]
      cases s.calibrationSettings with
      | none => rfl
      | some p => simp [isCalReq]
    unfold runConnections
    rw [List.filter_append, hmsgs, runConnections_no_calReq rest _ hfirst]
    rfl

/-- Witness for `calibration_request_sent_once`: from the initial state,
connections 5 then 6 produce exactly one `calibration_request`, to 5. -/
theorem calibration_request_sent_once_witness :
    ((runConnections initialHandler [5, 6]).2.filter (fun m => isCalReq m.2)) =
      [(5, OutMsg.calibrationRequest)] :=
  calibration_request_sent_once initialHandler rfl [5, 6]

/-! ## Malformed incoming messages (`src/utils/websocket_handler.py` lines 40-54,
`src/src/python/websocket_handler.py` lines 88-115)

An incoming raw message either JSON-decodes to a typed client message or
is malformed (`json.loads` raises `JSONDecodeError`).

In the `utils` variant, decoding happens inside `_handle_message`, whose
`except json.JSONDecodeError` catches per message: the message is logged
and dropped, and the receive loop (and the subscriber's registration)
continues untouched.

In the `src/src/python` variant, `data = json.loads(message)` sits in
the body of the `async for`, but the matching
`except json.JSONDecodeError` is outside the loop, around it: a
malformed message raises out of the receive loop, the remaining messages
are never handled, and the `finally` block discards the subscriber and
cancels its background stream task. -/

inductive ClientMsg where
  | calibrationChoice (useLast : Bool)
  | startStream
  | getVideoUrl
  | unknownType
deriving Repr, DecidableEq

inductive RawMsg where
  | malformed
  | valid (m : ClientMsg)
deriving Repr, DecidableEq

/-- `utils` receive loop: the trace of messages actually routed.
Malformed ones are dropped in place and the loop continues. -/
def utilsProcessMsgs : List RawMsg → List ClientMsg
  | [] => []
  | RawMsg.malformed :: rest => utilsProcessMsgs rest
  | RawMsg.valid m :: rest => m :: utilsProcessMsgs rest

/-- `src/src/python` receive loop: the trace of messages routed before
the loop ends, and whether it was aborted by a decode error. -/
def pyProcessMsgs : List RawMsg → List ClientMsg × Bool
  | [] => ([], false)
  | RawMsg.malformed :: _ => ([], true)
  | RawMsg.valid m :: rest =>
    ((m :: (pyProcessMsgs rest).1), (pyProcessMsgs rest).2)

structure PyClientResult where
  handled : List ClientMsg
  clientsAfter : List ℕ
  streamTaskCancelled : Bool
  abortedByMalformed : Bool
deriving Repr, DecidableEq

/-- `handle_client` of the `src/src/python` variant for subscriber `c`:
register, run the receive loop until the incoming messages end or a
decode error escapes, then (`finally`) deregister and cancel the stream
task if one was started by a handled `start_stream`. -/
def pyHandleClient (clients : List ℕ) (c : ℕ) (msgs : List RawMsg) : PyClientResult :=
  { handled := (pyProcessMsgs msgs).1
  , clientsAfter := (c :: clients).erase c
  , streamTaskCancelled := (pyProcessMsgs msgs).1.contains ClientMsg.startStream
  , abortedByMalformed := (pyProcessMsgs msgs).2 }

/-- Counterexample to C5 as stated: in the `src/src/python` handler, the
session that has handled `start_stream` receives a malformed message and
then a `get_video_url`; the decode error aborts the receive loop, the
`get_video_url` is never handled (without the malformed message it is),
and the running send loop is cancelled — the malformed message does
terminate the session. -/
theorem malformed_terminates_py_session :
    (pyHandleClient [] 0 [RawMsg.valid ClientMsg.startStream, RawMsg.malformed,
        RawMsg.valid ClientMsg.getVideoUrl]).handled = [ClientMsg.startStream] ∧
    (pyHandleClient [] 0 [RawMsg.valid ClientMsg.startStream, RawMsg.malformed,
        RawMsg.valid ClientMsg.getVideoUrl]).abortedByMalformed = true ∧
    (pyHandleClient [] 0 [RawMsg.valid ClientMsg.startStream, RawMsg.malformed,
        RawMsg.valid ClientMsg.getVideoUrl]).streamTaskCancelled = true ∧
    (pyHandleClient [] 0 [RawMsg.valid ClientMsg.startStream,
        RawMsg.valid ClientMsg.getVideoUrl]).handled =
      [ClientMsg.startStream, ClientMsg.getVideoUrl] := by
  decide

/-- C5 amended.  In the `utils` variant a malformed message is dropped
in place: the routed trace of any message sequence with a malformed
message inserted equals the trace of the sequence without it, and the
loop never aborts.  In the `src/src/python` variant, by contrast, a
malformed message aborts the receive loop and no later message is
handled. -/
theorem utils_malformed_dropped :
    (∀ pre suf : List RawMsg,
      utilsProcessMsgs (pre ++ RawMsg.malformed :: suf) = utilsProcessMsgs (pre ++ suf)) ∧
    (∀ suf : List RawMsg,
      (pyProcessMsgs (RawMsg.malformed :: suf)).1 = [] ∧
      (pyProcessMsgs (RawMsg.malformed :: suf)).2 = true) := by
  constructor
  · intro pre suf
    induction pre with
    | nil => rfl
    | cons r rest ih =>
      cases r with
      | malformed => simpa [utilsProcessMsgs] using ih
      | valid m => simpa [utilsProcessMsgs] using ih
  · intro suf
    exact ⟨rfl, rfl⟩

/-! ## Encoder fallback (`src/src/python/nvenc_encoder.py` lines 63-104)

`NVENCEncoder.encode`: when `self.use_nvenc and self.encoder`, attempt
the hardware path; on an exception log once, clear `use_nvenc`, and fall
through to CPU JPEG; `use_nvenc` is never set back to true.  The
per-tick hardware outcome and the CPU JPEG encoder are external: `hw t`
is the result of `_encode_nvenc` on tick `t` (`Except.error` when it
raises) and `jpeg t` the bytes from `cv2.imencode` on tick `t`. -/

structure NVENCEncoderSt where
  useNvenc : Bool
  hasEncoder : Bool
deriving Repr, DecidableEq

def NVENCEncoderSt.encode (hw : ℕ → Except Unit (List ℕ)) (jpeg : ℕ → List ℕ)
    (e : NVENCEncoderSt) (t : ℕ) : NVENCEncoderSt × List ℕ :=
  if e.useNvenc && e.hasEncoder then
    match hw t with
    | Except.ok b => (e, b)
    | Except.error _ => ({ e with useNvenc := false }, jpeg t)
  else (e, jpeg t)

/-- Run the encoder over the ticks of the capture loop, threading its
mutable state and collecting each tick's payload. -/
def encodeTicks (hw : ℕ → Except Unit (List ℕ)) (jpeg : ℕ → List ℕ) :
    NVENCEncoderSt → List ℕ → NVENCEncoderSt × List (List ℕ)
  | e, [] => (e, [])
  | e, t :: ts =>
    ((encodeTicks hw jpeg (e.encode hw jpeg t).1 ts).1,
     (e.encode hw jpeg t).2 :: (encodeTicks hw jpeg (e.encode hw jpeg t).1 ts).2)

lemma encode_off {hw : ℕ → Except Unit (List ℕ)} {jpeg : ℕ → List ℕ}
    {e : NVENCEncoderSt} {t : ℕ} (h : e.useNvenc = false) :
    e.encode hw jpeg t = (e, jpeg t) := by
  unfold NVENCEncoderSt.encode
  rw [h]
  simp

lemma encodeTicks_off (hw : ℕ → Except Unit (List ℕ)) (jpeg : ℕ → List ℕ)
    (ts : List ℕ) : ∀ e : NVENCEncoderSt, e.useNvenc = false →
      encodeTicks hw jpeg e ts = (e, ts.map jpeg) := by
  induction ts with
  | nil => intro e _; rfl
  | cons t rest ih =>
    intro e h
    unfold encodeTicks
    rw [encode_off h]
    simp only
    rw [ih e h]
    simp

/-- C9.  If the hardware encode attempt raises on a tick where the
hardware path is active, that tick already returns the software JPEG
payload, the `use_nvenc` flag is cleared, and every subsequent tick
returns the software JPEG payload with the hardware encoder never
consulted again (the run's outcome is identical under any other hardware
behaviour); when the JPEG encoder always yields non-empty bytes, every
payload from the failing tick on is non-empty. -/
theorem nvenc_failure_permanent_fallback (hw hw2 : ℕ → Except Unit (List ℕ))
    (jpeg : ℕ → List ℕ) (e : NVENCEncoderSt) (t : ℕ) (ts : List ℕ)
    (hn : e.useNvenc = true) (he : e.hasEncoder = true)
    (hf : hw t = Except.error ()) :
    (e.encode hw jpeg t).2 = jpeg t ∧
    (e.encode hw jpeg t).1.useNvenc = false ∧
    (encodeTicks hw jpeg (e.encode hw jpeg t).1 ts).2 = ts.map jpeg ∧
    encodeTicks hw2 jpeg (e.encode hw jpeg t).1 ts =
      encodeTicks hw jpeg (e.encode hw jpeg t).1 ts ∧
    ((∀ u, jpeg u ≠ []) → (e.encode hw jpeg t).2 ≠ [] ∧
      ∀ b ∈ (encodeTicks hw jpeg (e.encode hw jpeg t).1 ts).2, b ≠ []) := by
  have hstep : e.encode hw jpeg t = ({ e with useNvenc := false }, jpeg t) := by
    unfold NVENCEncoderSt.encode
    rw [hn, he, hf]
    simp
  have hoff : (e.encode hw jpeg t).1.useNvenc = false := by rw [hstep]
  have hrun := encodeTicks_off hw jpeg ts (e.encode hw jpeg t).1 hoff
  have hrun2 := encodeTicks_off hw2 jpeg ts (e.encode hw jpeg t).1 hoff
  refine ⟨by rw [hstep], hoff, by rw [hrun], by rw [hrun, hrun2], ?_⟩
  intro hj
  refine ⟨by rw [hstep]; exact hj t, ?_⟩
  intro b hb
  rw [hrun] at hb
  simp only [List.mem_map] at hb
  obtain ⟨u, _, hu⟩ := hb
  rw [← hu]
  exact hj u

/-- Witness for `nvenc_failure_permanent_fallback`: the hardware path
fails on tick 0; ticks 1 and 2 use the JPEG payloads `[u+1]`. -/
theorem nvenc_failure_permanent_fallback_witness :
    (NVENCEncoderSt.encode (fun _ => Except.error ()) (fun u => [u + 1])
        { useNvenc := true, hasEncoder := true } 0).2 = [1] ∧
    ((NVENCEncoderSt.encode (fun _ => Except.error ()) (fun u => [u + 1])
        { useNvenc := true, hasEncoder := true } 0).1.useNvenc = false) := by
  have h := nvenc_failure_permanent_fallback (fun _ => Except.error ())
    (fun _ => Except.ok []) (fun u => [u + 1])
    { useNvenc := true, hasEncoder := true } 0 [1, 2] rfl rfl rfl
  exact ⟨h.1, h.2.1⟩

end TechnoJuggling
